import Mathlib

/-
Shallow embedding of the sudoku puzzle state engine (the SudokuGame class).
The board, solution and initial board are 81-cell grids of characters, a
digit between one and nine or the empty marker.  Notes map a cell index to
a finite set of candidate digit characters; an absent entry is `none`.
JavaScript string indexing and array indexing are modelled as total
functions on `Fin 81`; the selected cell is a raw natural number as in the
source, where an out-of-range index makes every write a no-op because
indexing off the end yields a value different from the empty marker.
-/

namespace Sudoku

/-- Row of a cell index, as computed in the source: floor of index / 9. -/
def rowOf (i : Fin 81) : Nat := i.val / 9

/-- Column of a cell index, as computed in the source: index mod 9. -/
def colOf (i : Fin 81) : Nat := i.val % 9

/-- Top row of the 3x3 box of a cell: floor of row / 3, times 3. -/
def boxRowOf (i : Fin 81) : Nat := rowOf i / 3 * 3

/-- Left column of the 3x3 box of a cell: floor of col / 3, times 3. -/
def boxColOf (i : Fin 81) : Nat := colOf i / 3 * 3

/-- The same-row-or-column-or-box test shared by hasConstraintViolation,
highlightRelatedCells and eliminateNotesInRelatedCells in the source. -/
def sameUnit (i c : Fin 81) : Bool :=
  rowOf i == rowOf c || colOf i == colOf c ||
    (boxRowOf i == boxRowOf c && boxColOf i == boxColOf c)

/-- The engine state: fields of the SudokuGame class that carry game logic.
Presentation fields (DOM handles, fireworks) are omitted. -/
@[ext] structure GameState where
  board : Fin 81 → Char
  solution : Fin 81 → Char
  initialBoard : Fin 81 → Char
  notes : Fin 81 → Option (Finset Char)
  difficulty : String
  selectedCell : Option Nat
  noteMode : Bool

/-- The difficulty values accepted by loadGame in the source. -/
def validDifficulties : List String := ["easy", "medium", "hard", "expert"]

/-- Field defaults set by the class constructor before the first game is
started: blank grids for the null board fields, difficulty medium, no
selection, note mode off, no notes. -/
def initialGameState : GameState :=
  { board := fun _ => '.'
    solution := fun _ => '.'
    initialBoard := fun _ => '.'
    notes := fun _ => none
    difficulty := "medium"
    selectedCell := none
    noteMode := false }

/-- The dash-to-dot normalization applied to the generated puzzle string. -/
def normalizePuzzle (p : List Char) : List Char :=
  p.map fun c => if c = '-' then '.' else c

/-- The startNewGame mutation: the initial board is the normalized puzzle,
the working board is a copy of it, the solution comes from the generator,
and the notes are cleared.  Selection, note mode and difficulty persist. -/
def startNewGame (g : GameState) (puzzle solution : List Char) : GameState :=
  let ib := normalizePuzzle puzzle
  { g with
    initialBoard := fun i => ib.getD i.val '.'
    board := fun i => ib.getD i.val '.'
    solution := fun i => solution.getD i.val '.'
    notes := fun _ => none }

/-- The selectCell mutation: the selection is set unconditionally, given
cells included; highlighting and persistence are side channels. -/
def selectCell (g : GameState) (i : Fin 81) : GameState :=
  { g with selectedCell := some i.val }

/-- Membership of cell i in the highlight set produced for a selected cell:
the source skips the selected cell itself, then highlights peers of the
selected cell and cells holding the same non-empty value. -/
def highlighted (g : GameState) (index i : Fin 81) : Bool :=
  i != index &&
    (sameUnit i index ||
      (g.board index != '.' && g.board i == g.board index))

/-- The eliminateNotesInRelatedCells mutation on the notes map: for every
other cell in the same row, column or box that has the digit among its
notes, the digit is deleted, and a note set that becomes empty is removed
from the map. -/
def eliminateNotesInRelatedCells (notes : Fin 81 → Option (Finset Char))
    (cellIndex : Fin 81) (number : Char) : Fin 81 → Option (Finset Char) :=
  fun i =>
    if i = cellIndex then notes i
    else if sameUnit i cellIndex then
      match notes i with
      | some s =>
        if number ∈ s then
          if s.erase number = ∅ then none else some (s.erase number)
        else some s
      | none => none
    else notes i

/-- The placeNumber mutation.  The input is the pressed pad button: `none`
is the erase button (the empty string in the source) and `some d` is a
digit character.  With no selection, or a selection that is a given cell
or out of range, the state is unchanged.  In note mode erase clears both
value and notes, and a digit toggles its note membership while forcing the
board value to empty; in value mode the notes of the cell are dropped, the
value is written, and a placed digit is eliminated from peer notes. -/
def placeNumber (g : GameState) (number : Option Char) : GameState :=
  match g.selectedCell with
  | none => g
  | some n =>
    if h : n < 81 then
      let sc : Fin 81 := ⟨n, h⟩
      if g.initialBoard sc ≠ '.' then g
      else if g.noteMode then
        match number with
        | none =>
          { g with
            notes := fun i => if i = sc then none else g.notes i
            board := fun i => if i = sc then '.' else g.board i }
        | some d =>
          let cur := (g.notes sc).getD ∅
          let newNotes : Option (Finset Char) :=
            if d ∈ cur then
              if cur.erase d = ∅ then none else some (cur.erase d)
            else some (insert d cur)
          { g with
            notes := fun i => if i = sc then newNotes else g.notes i
            board := fun i => if i = sc then '.' else g.board i }
      else
        let board' := fun i => if i = sc then number.getD '.' else g.board i
        let notes' := fun i => if i = sc then none else g.notes i
        match number with
        | none => { g with board := board', notes := notes' }
        | some d =>
          { g with
            board := board'
            notes := eliminateNotesInRelatedCells notes' sc d }
    else g

/-- The hint mutation applied at a chosen empty non-given cell: the
solution digit is written, the notes of the cell are dropped, the digit is
eliminated from peer notes, and the cell becomes selected.  The random
choice among candidates is a parameter here. -/
def applyHint (g : GameState) (idx : Fin 81) : GameState :=
  let hintNumber := g.solution idx
  let board' := fun i => if i = idx then hintNumber else g.board i
  let notes' := fun i => if i = idx then none else g.notes i
  { g with
    board := board'
    notes := eliminateNotesInRelatedCells notes' idx hintNumber
    selectedCell := some idx.val }

/-- The completeness test used by the source before calling checkWin:
negation of board.includes of the empty marker. -/
def isComplete (g : GameState) : Bool :=
  !((List.finRange 81).map g.board).contains '.'

/-- The win test of checkWin: every board value equals the solution value
at the same index. -/
def checkWin (g : GameState) : Bool :=
  (List.finRange 81).all fun i => g.board i == g.solution i

/-- The hasConstraintViolation query: false at an empty cell, otherwise a
scan of all other cells in the same row, column or box for the same
value. -/
def hasConstraintViolation (g : GameState) (cellIndex : Fin 81) : Bool :=
  let value := g.board cellIndex
  if value = '.' then false
  else
    (List.finRange 81).any fun i =>
      i != cellIndex && sameUnit i cellIndex && (g.board i == value)

/-- A stored note value: the current format is a list of digit characters,
the legacy format is a single-character string. -/
inductive NoteVal where
  | arr : List Char → NoteVal
  | str : Char → NoteVal

/-- Normalization of a stored note value into a candidate set, as done by
loadGame: a list becomes the set of its elements, a legacy string becomes
a one-element set. -/
def noteValToSet : NoteVal → Finset Char
  | .arr l => l.toFinset
  | .str c => {c}

/-- The parsed snapshot object.  Absent fields are `none`; the notes field
is the list of key-value entries of the stored object in insertion
order. -/
structure Snapshot where
  board : Option (List Char)
  solution : Option (List Char)
  initialBoard : Option (List Char)
  notes : Option (List (Nat × NoteVal))
  difficulty : Option String
  selectedCell : Option Nat
  noteMode : Option Bool

/-- One assignment step of the loadGame notes loop: the entry overwrites
whatever an earlier entry put at the same key. -/
def assignNote (acc : Fin 81 → Option (Finset Char)) (kv : Nat × NoteVal) :
    Fin 81 → Option (Finset Char) :=
  fun i => if i.val = kv.1 then some (noteValToSet kv.2) else acc i

/-- The loadGame notes loop over the stored entries in order, starting
from an empty map.  Keys outside the grid never match a cell index. -/
def notesFromSnapshot (ns : List (Nat × NoteVal)) :
    Fin 81 → Option (Finset Char) :=
  ns.foldl assignNote fun _ => none

/-- The saveGame serialization: grids are written out index by index, each
note set becomes a list entry keyed by its cell, and the scalar fields are
copied.  The source enumerates each note set in insertion order; here the
set is enumerated in a canonical order, which is equivalent because the
format is read back purely by membership. -/
def saveGame (g : GameState) : Snapshot :=
  { board := some ((List.finRange 81).map g.board)
    solution := some ((List.finRange 81).map g.solution)
    initialBoard := some ((List.finRange 81).map g.initialBoard)
    notes := some ((List.finRange 81).filterMap fun i =>
      (g.notes i).map fun s => (i.val, NoteVal.arr (s.sort (· ≤ ·))))
    difficulty := some g.difficulty
    selectedCell := g.selectedCell
    noteMode := some g.noteMode }

/-- The loadGame deserialization.  A missing stored string or a parse
failure is the `none` input.  The three grid fields must be present, and
the initial board must be a non-empty string since an empty string is
falsy in the source check; notes are rebuilt by the assignment loop, an
out-of-enum or missing difficulty becomes medium, and note mode defaults
to false. -/
def loadGame (snap : Option Snapshot) : Option GameState :=
  match snap with
  | none => none
  | some s =>
    match s.board, s.solution, s.initialBoard with
    | some b, some sol, some ib =>
      if ib.isEmpty then none
      else
        some
          { board := fun i => b.getD i.val '.'
            solution := fun i => sol.getD i.val '.'
            initialBoard := fun i => ib.getD i.val '.'
            notes := notesFromSnapshot (s.notes.getD [])
            difficulty :=
              match s.difficulty with
              | some d => if validDifficulties.contains d then d else "medium"
              | none => "medium"
            selectedCell := s.selectedCell
            noteMode := s.noteMode.getD false }
    | _, _, _ => none

/-- States reachable by engine operations from a freshly started game:
starting or restarting a game, placing or erasing a value or note, cell
selection, an applied hint at an empty non-given cell, toggling note mode,
and picking a difficulty from the fixed selector options. -/
inductive Reachable : GameState → Prop
  | start (puzzle solution : List Char) :
      Reachable (startNewGame initialGameState puzzle solution)
  | newGame {g} (puzzle solution : List Char) :
      Reachable g → Reachable (startNewGame g puzzle solution)
  | place {g} (number : Option Char) :
      Reachable g → Reachable (placeNumber g number)
  | select {g} (i : Fin 81) :
      Reachable g → Reachable (selectCell g i)
  | hint {g} (idx : Fin 81) :
      Reachable g → g.board idx = '.' → g.initialBoard idx = '.' →
      Reachable (applyHint g idx)
  | setNoteMode {g} (b : Bool) :
      Reachable g → Reachable { g with noteMode := b }
  | setDifficulty {g} (d : String) :
      Reachable g → d ∈ validDifficulties →
      Reachable { g with difficulty := d }

/-- A sample puzzle in the generator output format. -/
def puzzle0 : String :=
  "53..7....6..195....98....6.8...6...34..8.3..17...2...6.6....28....419..5....8..79"

/-- The completion of the sample puzzle. -/
def solution0 : String :=
  "534678912672195348198342567859761423426853791713924856961537284287419635345286179"

/-- A freshly started game on the sample puzzle. -/
def gStart : GameState :=
  startNewGame initialGameState puzzle0.toList solution0.toList

/-! Unfold lemmas describing each branch of placeNumber. -/

lemma placeNumber_no_selection (g : GameState) (n : Option Char)
    (hs : g.selectedCell = none) : placeNumber g n = g := by
  unfold placeNumber
  rw [hs]

lemma placeNumber_out_of_range (g : GameState) (n : Option Char) (m : Nat)
    (hs : g.selectedCell = some m) (hm : ¬ m < 81) : placeNumber g n = g := by
  unfold placeNumber
  rw [hs]
  simp [hm]

lemma placeNumber_given (g : GameState) (n : Option Char) (c : Fin 81)
    (hs : g.selectedCell = some c.val) (hi : g.initialBoard c ≠ '.') :
    placeNumber g n = g := by
  unfold placeNumber
  rw [hs]
  simp [c.isLt, Fin.eta, hi]

lemma placeNumber_note_erase (g : GameState) (c : Fin 81)
    (hm : g.noteMode = true) (hs : g.selectedCell = some c.val)
    (hi : g.initialBoard c = '.') :
    placeNumber g none =
      { g with
        notes := fun i => if i = c then none else g.notes i
        board := fun i => if i = c then '.' else g.board i } := by
  unfold placeNumber
  rw [hs]
  simp [c.isLt, Fin.eta, hi, hm]

lemma placeNumber_note_toggle (g : GameState) (c : Fin 81) (d : Char)
    (hm : g.noteMode = true) (hs : g.selectedCell = some c.val)
    (hi : g.initialBoard c = '.') :
    placeNumber g (some d) =
      { g with
        notes := fun i => if i = c then
            (if d ∈ (g.notes c).getD ∅ then
              (if ((g.notes c).getD ∅).erase d = ∅ then none
                else some (((g.notes c).getD ∅).erase d))
            else some (insert d ((g.notes c).getD ∅)))
          else g.notes i
        board := fun i => if i = c then '.' else g.board i } := by
  unfold placeNumber
  rw [hs]
  simp [c.isLt, Fin.eta, hi, hm]

lemma placeNumber_value_erase (g : GameState) (c : Fin 81)
    (hm : g.noteMode = false) (hs : g.selectedCell = some c.val)
    (hi : g.initialBoard c = '.') :
    placeNumber g none =
      { g with
        board := fun i => if i = c then '.' else g.board i
        notes := fun i => if i = c then none else g.notes i } := by
  unfold placeNumber
  rw [hs]
  simp [c.isLt, Fin.eta, hi, hm]

lemma placeNumber_value_digit (g : GameState) (c : Fin 81) (d : Char)
    (hm : g.noteMode = false) (hs : g.selectedCell = some c.val)
    (hi : g.initialBoard c = '.') :
    placeNumber g (some d) =
      { g with
        board := fun i => if i = c then d else g.board i
        notes := eliminateNotesInRelatedCells
          (fun i => if i = c then none else g.notes i) c d } := by
  unfold placeNumber
  rw [hs]
  simp [c.isLt, Fin.eta, hi, hm]

/-- Propositional reading of the boolean same-row-or-column-or-box test. -/
lemma sameUnit_iff (j c : Fin 81) :
    sameUnit j c = true ↔
      (rowOf j = rowOf c ∨ colOf j = colOf c ∨
        (boxRowOf j = boxRowOf c ∧ boxColOf j = boxColOf c)) := by
  simp [sameUnit, or_assoc]

/-- C6: hasConstraintViolation at a cell is true exactly when the cell
holds a non-empty value and some other cell in the same row, column or
3x3 box holds the identical value; in particular it is false whenever the
cell is empty. -/
theorem hasConstraintViolation_iff (g : GameState) (i : Fin 81) :
    hasConstraintViolation g i = true ↔
      (g.board i ≠ '.' ∧ ∃ j : Fin 81, j ≠ i ∧
        (rowOf j = rowOf i ∨ colOf j = colOf i ∨
          (boxRowOf j = boxRowOf i ∧ boxColOf j = boxColOf i)) ∧
        g.board j = g.board i) := by
  unfold hasConstraintViolation
  by_cases hb : g.board i = '.'
  · simp [hb]
  · simp [hb, List.any_eq_true, sameUnit_iff, and_assoc]

/-- C7: selectCell records any index as the selection, given cells
included, and the highlight predicate holds exactly for the other cells
sharing the row, column or box of the selected cell together with the
other cells holding the same non-empty value; the selected cell itself is
never highlighted. -/
theorem selectCell_highlight_spec (g : GameState) (i : Fin 81) :
    (selectCell g i).selectedCell = some i.val ∧
      ∀ j : Fin 81, highlighted g i j = true ↔
        (j ≠ i ∧ ((rowOf j = rowOf i ∨ colOf j = colOf i ∨
            (boxRowOf j = boxRowOf i ∧ boxColOf j = boxColOf i)) ∨
          (g.board i ≠ '.' ∧ g.board j = g.board i))) := by
  refine ⟨rfl, fun j => ?_⟩
  unfold highlighted
  simp [sameUnit_iff, bne_iff_ne]

/-- C8: with note mode on and a non-given cell selected, the erase input
clears both the board value and the note entry of the selected cell. -/
theorem noteMode_erase_clears (g : GameState) (c : Fin 81)
    (hm : g.noteMode = true) (hs : g.selectedCell = some c.val)
    (hi : g.initialBoard c = '.') :
    (placeNumber g none).board c = '.' ∧ (placeNumber g none).notes c = none := by
  rw [placeNumber_note_erase g c hm hs hi]
  simp

/-- C9: at a selected non-given cell that is empty and has no notes,
toggling the same note digit twice in note mode leaves the notes mapping
with no entry for that cell. -/
theorem note_toggle_twice (g : GameState) (c : Fin 81) (d : Char)
    (hm : g.noteMode = true) (hs : g.selectedCell = some c.val)
    (hi : g.initialBoard c = '.') ( _hb : g.board c = '.')
    (hn : g.notes c = none) :
    (placeNumber (placeNumber g (some d)) (some d)).notes c = none := by
  have h1 := placeNumber_note_toggle g c d hm hs hi
  rw [hn] at h1
  simp only [Option.getD_none, Finset.not_mem_empty, if_false] at h1
  set g1 := placeNumber g (some d) with hg1
  have hm1 : g1.noteMode = true := by rw [h1]; exact hm
  have hs1 : g1.selectedCell = some c.val := by rw [h1]; exact hs
  have hi1 : g1.initialBoard c = '.' := by rw [h1]; exact hi
  have hn1 : g1.notes c = some {d} := by rw [h1]; simp
  have h2 := placeNumber_note_toggle g1 c d hm1 hs1 hi1
  rw [hn1] at h2
  rw [h2]
  simp

/-! Engine invariants and their preservation by every operation. -/

/-- Given cells keep their initial value on the working board. -/
def GivenInv (g : GameState) : Prop :=
  ∀ i, g.initialBoard i ≠ '.' → g.board i = g.initialBoard i

/-- A cell holding a committed value has no note entry. -/
def NotesExclusive (g : GameState) : Prop :=
  ∀ i, g.board i ≠ '.' → g.notes i = none

/-- Every present note set is non-empty. -/
def NotesNonempty (g : GameState) : Prop :=
  ∀ i s, g.notes i = some s → s ≠ ∅

/-- The invariant carried by all reachable states. -/
def Invariant (g : GameState) : Prop :=
  GivenInv g ∧ NotesExclusive g ∧ NotesNonempty g ∧
    g.difficulty ∈ validDifficulties

lemma eliminate_eq_none_of_none (notes : Fin 81 → Option (Finset Char))
    (c : Fin 81) (d : Char) (i : Fin 81) (h : notes i = none) :
    eliminateNotesInRelatedCells notes c d i = none := by
  unfold eliminateNotesInRelatedCells
  split_ifs <;> simp [h]

lemma eliminate_some (notes : Fin 81 → Option (Finset Char)) (c : Fin 81)
    (d : Char) (i : Fin 81) (s' : Finset Char)
    (h : eliminateNotesInRelatedCells notes c d i = some s') :
    ∃ s, notes i = some s ∧ (s' = s ∨ (s' = s.erase d ∧ s' ≠ ∅)) := by
  unfold eliminateNotesInRelatedCells at h
  split_ifs at h with h1 h2
  · exact ⟨s', h, Or.inl rfl⟩
  · cases hn : notes i with
    | none => rw [hn] at h; simp at h
    | some t =>
      rw [hn] at h
      by_cases hd : d ∈ t
      · by_cases he : t.erase d = ∅
        · simp [hd, he] at h
        · simp only [hd, if_true, he, if_false, Option.some.injEq] at h
          exact ⟨t, rfl, Or.inr ⟨h.symm, h ▸ he⟩⟩
      · simp only [hd, if_false, Option.some.injEq] at h
        exact ⟨t, rfl, Or.inl h.symm⟩
  · exact ⟨s', h, Or.inl rfl⟩

lemma eliminate_self (notes : Fin 81 → Option (Finset Char)) (c : Fin 81)
    (d : Char) : eliminateNotesInRelatedCells notes c d c = notes c := by
  unfold eliminateNotesInRelatedCells
  simp

/-- Unfolded form of the hint mutation. -/
lemma applyHint_eq (g : GameState) (idx : Fin 81) :
    applyHint g idx =
      { g with
        board := fun i => if i = idx then g.solution idx else g.board i
        notes := eliminateNotesInRelatedCells
          (fun i => if i = idx then none else g.notes i) idx (g.solution idx)
        selectedCell := some idx.val } := rfl

lemma invariant_initial : Invariant initialGameState := by
  refine ⟨fun i h => absurd rfl h, fun i h => absurd rfl h,
    fun i s hs => by simp [initialGameState] at hs, ?_⟩
  simp [initialGameState, validDifficulties]

lemma invariant_startNewGame (g : GameState) (p s : List Char)
    (h : Invariant g) : Invariant (startNewGame g p s) := by
  obtain ⟨-, -, -, hd⟩ := h
  exact ⟨fun i _ => rfl, fun i _ => rfl,
    fun i s hs => by simp [startNewGame] at hs, hd⟩

lemma invariant_selectCell (g : GameState) (i : Fin 81)
    (h : Invariant g) : Invariant (selectCell g i) := h

lemma invariant_setNoteMode (g : GameState) (b : Bool)
    (h : Invariant g) : Invariant { g with noteMode := b } := h

lemma invariant_setDifficulty (g : GameState) (d : String)
    (hd : d ∈ validDifficulties) (h : Invariant g) :
    Invariant { g with difficulty := d } :=
  ⟨h.1, h.2.1, h.2.2.1, hd⟩

lemma invariant_placeNumber (g : GameState) (n : Option Char)
    (h : Invariant g) : Invariant (placeNumber g n) := by
  obtain ⟨h1, h2, h3, hd⟩ := h
  cases hsel : g.selectedCell with
  | none => rw [placeNumber_no_selection g n hsel]; exact ⟨h1, h2, h3, hd⟩
  | some m =>
    by_cases hm81 : m < 81
    · have hsel' : g.selectedCell = some (⟨m, hm81⟩ : Fin 81).val := hsel
      set c : Fin 81 := ⟨m, hm81⟩
      by_cases hgiven : g.initialBoard c = '.'
      · cases hmode : g.noteMode with
        | true =>
          cases n with
          | none =>
            rw [placeNumber_note_erase g c hmode hsel' hgiven]
            refine ⟨fun i hi => ?_, fun i hi => ?_, fun i s hs => ?_, hd⟩
            · by_cases hic : i = c
              · exact absurd (hic ▸ hgiven) hi
              · simpa [hic] using h1 i hi
            · by_cases hic : i = c
              · simp [hic]
              · simp only [hic, if_false] at hi ⊢; exact h2 i hi
            · by_cases hic : i = c
              · simp [hic] at hs
              · simp only [hic, if_false] at hs; exact h3 i s hs
          | some d =>
            rw [placeNumber_note_toggle g c d hmode hsel' hgiven]
            refine ⟨fun i hi => ?_, fun i hi => ?_, fun i s hs => ?_, hd⟩
            · by_cases hic : i = c
              · exact absurd (hic ▸ hgiven) hi
              · simpa [hic] using h1 i hi
            · by_cases hic : i = c
              · simp [hic] at hi
              · simp only [hic, if_false] at hi ⊢; exact h2 i hi
            · by_cases hic : i = c
              · subst hic
                dsimp only at hs
                rw [if_pos rfl] at hs
                split_ifs at hs with hdm hde
                · simp only [Option.some.injEq] at hs
                  exact hs ▸ hde
                · simp only [Option.some.injEq] at hs
                  exact hs ▸ Finset.insert_ne_empty d _
              · simp only [hic, if_false] at hs; exact h3 i s hs
        | false =>
          cases n with
          | none =>
            rw [placeNumber_value_erase g c hmode hsel' hgiven]
            refine ⟨fun i hi => ?_, fun i hi => ?_, fun i s hs => ?_, hd⟩
            · by_cases hic : i = c
              · exact absurd (hic ▸ hgiven) hi
              · simpa [hic] using h1 i hi
            · by_cases hic : i = c
              · simp [hic]
              · simp only [hic, if_false] at hi ⊢; exact h2 i hi
            · by_cases hic : i = c
              · simp [hic] at hs
              · simp only [hic, if_false] at hs; exact h3 i s hs
          | some d =>
            rw [placeNumber_value_digit g c d hmode hsel' hgiven]
            refine ⟨fun i hi => ?_, fun i hi => ?_, fun i s hs => ?_, hd⟩
            · by_cases hic : i = c
              · exact absurd (hic ▸ hgiven) hi
              · simpa [hic] using h1 i hi
            · by_cases hic : i = c
              · subst hic
                dsimp only
                rw [eliminate_self]
                simp
              · dsimp only at hi ⊢
                rw [if_neg hic] at hi
                exact eliminate_eq_none_of_none _ c d i
                  (by simp [hic, h2 i hi])
            · dsimp only at hs
              obtain ⟨t, ht, hcase⟩ := eliminate_some _ c d i s hs
              by_cases hic : i = c
              · simp [hic] at ht
              · rw [if_neg hic] at ht
                rcases hcase with rfl | ⟨-, hne⟩
                · exact h3 _ _ ht
                · exact hne
      · rw [placeNumber_given g n c hsel' hgiven]
        exact ⟨h1, h2, h3, hd⟩
    · rw [placeNumber_out_of_range g n m hsel hm81]
      exact ⟨h1, h2, h3, hd⟩

lemma invariant_applyHint (g : GameState) (idx : Fin 81)
    (hig : g.initialBoard idx = '.') (h : Invariant g) :
    Invariant (applyHint g idx) := by
  obtain ⟨h1, h2, h3, hd⟩ := h
  rw [applyHint_eq]
  refine ⟨fun i hi => ?_, fun i hi => ?_, fun i s hs => ?_, hd⟩
  · by_cases hic : i = idx
    · exact absurd (hic ▸ hig) hi
    · simpa [hic] using h1 i hi
  · by_cases hic : i = idx
    · subst hic
      dsimp only
      rw [eliminate_self]
      simp
    · dsimp only at hi ⊢
      rw [if_neg hic] at hi
      exact eliminate_eq_none_of_none _ idx _ i (by simp [hic, h2 i hi])
  · dsimp only at hs
    obtain ⟨t, ht, hcase⟩ := eliminate_some _ idx _ i s hs
    by_cases hic : i = idx
    · simp [hic] at ht
    · rw [if_neg hic] at ht
      rcases hcase with rfl | ⟨-, hne⟩
      · exact h3 _ _ ht
      · exact hne

/-- Every state reachable by engine operations satisfies the invariant. -/
lemma reachable_inv (g : GameState) (hg : Reachable g) : Invariant g := by
  induction hg with
  | start p s => exact invariant_startNewGame _ p s invariant_initial
  | newGame p s _ ih => exact invariant_startNewGame _ p s ih
  | place n _ ih => exact invariant_placeNumber _ n ih
  | select i _ ih => exact invariant_selectCell _ i ih
  | hint idx _ _ hig ih => exact invariant_applyHint _ idx hig ih
  | setNoteMode b _ ih => exact invariant_setNoteMode _ b ih
  | setDifficulty d _ hd ih => exact invariant_setDifficulty _ d hd ih

/-- The sample fresh game is reachable. -/
lemma gStart_reachable : Reachable gStart :=
  Reachable.start puzzle0.toList solution0.toList

/-- The board of a given cell is untouched by any placeNumber input. -/
lemma placeNumber_board_given (g : GameState) (n : Option Char) (i : Fin 81)
    (hi : g.initialBoard i ≠ '.') :
    (placeNumber g n).board i = g.board i := by
  cases hsel : g.selectedCell with
  | none => rw [placeNumber_no_selection g n hsel]
  | some m =>
    by_cases hm81 : m < 81
    · have hsel' : g.selectedCell = some (⟨m, hm81⟩ : Fin 81).val := hsel
      set c : Fin 81 := ⟨m, hm81⟩
      by_cases hgiven : g.initialBoard c = '.'
      · have hic : i ≠ c := fun h => hi (h ▸ hgiven)
        cases hmode : g.noteMode with
        | true =>
          cases n with
          | none =>
            rw [placeNumber_note_erase g c hmode hsel' hgiven]
            simp [hic]
          | some d =>
            rw [placeNumber_note_toggle g c d hmode hsel' hgiven]
            simp [hic]
        | false =>
          cases n with
          | none =>
            rw [placeNumber_value_erase g c hmode hsel' hgiven]
            simp [hic]
          | some d =>
            rw [placeNumber_value_digit g c d hmode hsel' hgiven]
            simp [hic]
      · rw [placeNumber_given g n c hsel' hgiven]
    · rw [placeNumber_out_of_range g n m hsel hm81]

/-- C2: at an index holding a given, placeNumber leaves the board value
unchanged for every digit or erase input, and in every reachable state the
board still carries the initial value there. -/
theorem givenCells_immutable (g : GameState) (n : Option Char) (i : Fin 81)
    (hg : Reachable g) (hi : g.initialBoard i ≠ '.') :
    (placeNumber g n).board i = g.board i ∧ g.board i = g.initialBoard i :=
  ⟨placeNumber_board_given g n i hi, (reachable_inv g hg).1 i hi⟩

/-- C2 witness: the first cell of the sample puzzle is a given and keeps
its value under a placement attempt. -/
theorem givenCells_immutable_w :
    (placeNumber gStart (some '7')).board (0 : Fin 81) = gStart.board (0 : Fin 81) ∧
      gStart.board (0 : Fin 81) = gStart.initialBoard (0 : Fin 81) :=
  givenCells_immutable gStart (some '7') (0 : Fin 81) gStart_reachable (by decide)

/-- C3 counterexample: in a freshly started game an empty non-given cell
has an empty board value and also no note entry, so the stated
equivalence between a non-empty board value and the absence of a note
entry fails at that cell. -/
theorem board_notes_iff_cex :
    Reachable gStart ∧
      ¬((gStart.board (2 : Fin 81) ≠ '.') ↔ gStart.notes (2 : Fin 81) = none) :=
  ⟨gStart_reachable, by decide⟩

/-- C3 amended: in every reachable state a committed value and a note set
never coexist at a cell, and every present note set is non-empty; the
reverse implication from an absent note entry to a non-empty board value
does not hold. -/
theorem board_notes_exclusive (g : GameState) (hg : Reachable g) (i : Fin 81) :
    (g.board i ≠ '.' → g.notes i = none) ∧
      (∀ s, g.notes i = some s → s ≠ ∅) :=
  ⟨fun h => (reachable_inv g hg).2.1 i h,
    fun s hs => (reachable_inv g hg).2.2.1 i s hs⟩

/-- C3 witness: the invariant instantiated at the sample fresh game. -/
theorem board_notes_exclusive_w :
    (gStart.board (0 : Fin 81) ≠ '.' → gStart.notes (0 : Fin 81) = none) ∧
      (∀ s, gStart.notes (0 : Fin 81) = some s → s ≠ ∅) :=
  board_notes_exclusive gStart gStart_reachable (0 : Fin 81)

/-- C4: committing a digit in value mode at a selected non-given cell
leaves the digit in no note set of any peer cell, and a peer note set
containing exactly that digit is deleted rather than kept empty. -/
theorem place_eliminates_peer_notes (g : GameState) (c p : Fin 81) (d : Char)
    (hm : g.noteMode = false) (hs : g.selectedCell = some c.val)
    (hi : g.initialBoard c = '.') (hp : p ≠ c) (hu : sameUnit p c = true) :
    (∀ s, (placeNumber g (some d)).notes p = some s → d ∉ s) ∧
      (∀ s, g.notes p = some s → d ∈ s → s.erase d = ∅ →
        (placeNumber g (some d)).notes p = none) := by
  rw [placeNumber_value_digit g c d hm hs hi]
  dsimp only
  unfold eliminateNotesInRelatedCells
  rw [if_neg hp, if_pos hu]
  dsimp only
  rw [if_neg hp]
  constructor
  · intro s hs'
    cases hgp : g.notes p with
    | none => rw [hgp] at hs'; simp at hs'
    | some t =>
      rw [hgp] at hs'
      by_cases hd : d ∈ t
      · by_cases he : t.erase d = ∅
        · simp [hd, he] at hs'
        · simp only [hd, if_true, he, if_false, Option.some.injEq] at hs'
          exact hs' ▸ Finset.not_mem_erase d t
      · simp only [hd, if_false, Option.some.injEq] at hs'
        exact hs' ▸ hd
  · intro s hgp hd he
    rw [hgp]
    simp [hd, he]

/-- C5: given a well-formed solution with no empty marker, checkWin
reports a win exactly when the board is complete and agrees with the
solution at every cell. -/
theorem checkWin_iff (g : GameState) (hsol : ∀ i, g.solution i ≠ '.') :
    checkWin g = true ↔
      (isComplete g = true ∧ ∀ i, g.board i = g.solution i) := by
  have hcomp : isComplete g = true ↔ ∀ i, g.board i ≠ '.' := by
    unfold isComplete
    simp [List.contains_iff_exists_mem_beq]
  rw [hcomp]
  unfold checkWin
  simp only [List.all_eq_true, List.mem_finRange, beq_iff_eq, forall_const]
  constructor
  · intro h
    exact ⟨fun i => (h i) ▸ hsol i, h⟩
  · exact fun h => h.2

/-- A state obtained from the sample fresh game by selecting the empty
cell at index two and writing a note at its row peer at index three. -/
def gPeer : GameState :=
  { gStart with
    selectedCell := some 2
    notes := fun i => if i = (3 : Fin 81) then some {'9'} else none }

/-- C4 witness: committing nine at cell two removes the nine note from
the row peer at cell three. -/
theorem place_eliminates_peer_notes_w :
    (∀ s, (placeNumber gPeer (some '9')).notes (3 : Fin 81) = some s → '9' ∉ s) ∧
      (∀ s, gPeer.notes (3 : Fin 81) = some s → '9' ∈ s → s.erase '9' = ∅ →
        (placeNumber gPeer (some '9')).notes (3 : Fin 81) = none) :=
  place_eliminates_peer_notes gPeer (2 : Fin 81) (3 : Fin 81) '9'
    (by decide) (by decide) (by decide) (by decide) (by decide)

/-- The sample game with its board filled in by the full solution. -/
def gSolved : GameState :=
  { gStart with board := fun i => solution0.toList.getD i.val '.' }

/-- C5 witness: the win test characterization instantiated at the solved
sample game. -/
theorem checkWin_iff_w :
    checkWin gSolved = true ↔
      (isComplete gSolved = true ∧ ∀ i, gSolved.board i = gSolved.solution i) :=
  checkWin_iff gSolved (by decide)

/-- The sample game in note mode with the empty cell at index two
selected and carrying two candidate notes. -/
def gNote : GameState :=
  { gStart with
    noteMode := true
    selectedCell := some 2
    notes := fun i => if i = (2 : Fin 81) then some {'4', '7'} else none }

/-- C8 witness: the erase input in note mode clears both the value and
the note entry of the selected cell. -/
theorem noteMode_erase_clears_w :
    (placeNumber gNote none).board (2 : Fin 81) = '.' ∧
      (placeNumber gNote none).notes (2 : Fin 81) = none :=
  noteMode_erase_clears gNote (2 : Fin 81) (by decide) (by decide) (by decide)

/-- The sample game in note mode with the empty, note-free cell at index
two selected. -/
def gToggle : GameState :=
  { gStart with noteMode := true, selectedCell := some 2 }

/-- C9 witness: toggling the note four twice at the selected cell leaves
no note entry there. -/
theorem note_toggle_twice_w :
    (placeNumber (placeNumber gToggle (some '4')) (some '4')).notes (2 : Fin 81) = none :=
  note_toggle_twice gToggle (2 : Fin 81) '4'
    (by decide) (by decide) (by decide) (by decide) rfl

/-! Serialization round trip and snapshot validation. -/

lemma getD_map_finRange {α : Type} (f : Fin 81 → α) (i : Fin 81) (d : α) :
    ((List.finRange 81).map f).getD i.val d = f i := by
  have h : i.val < ((List.finRange 81).map f).length := by simp [i.isLt]
  rw [List.getD_eq_getElem?_getD, List.getElem?_eq_getElem h]
  simp

lemma find?_eq_some_of_unique {α : Type} (p : α → Bool) :
    ∀ (l : List α) (x : α), x ∈ l → p x = true →
      (∀ y ∈ l, p y = true → y = x) → l.find? p = some x := by
  intro l
  induction l with
  | nil => intro x hx _ _; simp at hx
  | cons a t ih =>
    intro x hx hp huniq
    by_cases ha : p a = true
    · rw [List.find?_cons_of_pos t ha]
      exact congrArg some (huniq a (List.mem_cons_self a t) ha)
    · rw [List.find?_cons_of_neg t ha]
      have hxt : x ∈ t := by
        rcases List.mem_cons.mp hx with rfl | h
        · exact absurd hp ha
        · exact h
      exact ih x hxt hp fun y hy hpy => huniq y (List.mem_cons_of_mem a hy) hpy

lemma notesFromSnapshot_apply (ns : List (Nat × NoteVal))
    (acc : Fin 81 → Option (Finset Char)) (i : Fin 81) :
    ns.foldl assignNote acc i =
      match ns.reverse.find? (fun kv => kv.1 == i.val) with
      | some kv => some (noteValToSet kv.2)
      | none => acc i := by
  induction ns generalizing acc with
  | nil => simp
  | cons kv rest ih =>
    rw [List.foldl_cons, ih (assignNote acc kv), List.reverse_cons,
      List.find?_append]
    cases hf : rest.reverse.find? (fun kv => kv.1 == i.val) with
    | some kv' => simp
    | none =>
      simp only [Option.none_or]
      by_cases hk : (kv.1 == i.val) = true
      · have hik : i.val = kv.1 := (Nat.beq_eq_true_eq _ _ ▸ hk).symm
        simp [List.find?, hk, assignNote, hik]
      · have hik : ¬ i.val = kv.1 := fun h => hk (by simp [h])
        simp [List.find?, hk, assignNote, hik]

lemma notesFromSnapshot_saveGame (g : GameState) (i : Fin 81) :
    notesFromSnapshot ((List.finRange 81).filterMap fun j =>
        (g.notes j).map fun s => (j.val, NoteVal.arr (s.sort (· ≤ ·)))) i =
      g.notes i := by
  unfold notesFromSnapshot
  rw [notesFromSnapshot_apply]
  cases hni : g.notes i with
  | some s =>
    have hx : (i.val, NoteVal.arr (s.sort (· ≤ ·))) ∈
        ((List.finRange 81).filterMap fun j =>
          (g.notes j).map fun t => (j.val, NoteVal.arr (t.sort (· ≤ ·)))).reverse := by
      rw [List.mem_reverse]
      exact List.mem_filterMap.mpr ⟨i, List.mem_finRange i, by rw [hni]; rfl⟩
    have huniq : ∀ y ∈ ((List.finRange 81).filterMap fun j =>
        (g.notes j).map fun t => (j.val, NoteVal.arr (t.sort (· ≤ ·)))).reverse,
        (y.1 == i.val) = true → y = (i.val, NoteVal.arr (s.sort (· ≤ ·))) := by
      intro y hy hp
      rw [List.mem_reverse] at hy
      obtain ⟨j, -, hj⟩ := List.mem_filterMap.mp hy
      obtain ⟨t, htj, rfl⟩ := Option.map_eq_some'.mp hj
      have hji : j = i := Fin.val_injective (by simpa using hp)
      subst hji
      rw [hni] at htj
      cases htj
      rfl
    rw [find?_eq_some_of_unique _ _ _ hx (by simp) huniq]
    simp only [noteValToSet]
    rw [Finset.sort_toFinset]
  | none =>
    have hnone : ∀ y ∈ ((List.finRange 81).filterMap fun j =>
        (g.notes j).map fun t => (j.val, NoteVal.arr (t.sort (· ≤ ·)))).reverse,
        ¬ (y.1 == i.val) = true := by
      intro y hy hp
      rw [List.mem_reverse] at hy
      obtain ⟨j, -, hj⟩ := List.mem_filterMap.mp hy
      obtain ⟨t, htj, rfl⟩ := Option.map_eq_some'.mp hj
      have hji : j = i := Fin.val_injective (by simpa using hp)
      subst hji
      rw [hni] at htj
      cases htj
    rw [List.find?_eq_none.mpr hnone]

/-- C1: loading the snapshot written by saveGame from any reachable state
reconstructs that state exactly: same board, solution, initial board,
note sets, difficulty, selection and note mode. -/
theorem saveGame_loadGame_roundtrip (g : GameState) (hg : Reachable g) :
    loadGame (some (saveGame g)) = some g := by
  have hd : g.difficulty ∈ validDifficulties := (reachable_inv g hg).2.2.2
  unfold loadGame saveGame
  dsimp only
  rw [if_neg (by simp)]
  congr 1
  refine GameState.ext ?_ ?_ ?_ ?_ ?_ ?_ ?_
  · funext i; exact getD_map_finRange g.board i '.'
  · funext i; exact getD_map_finRange g.solution i '.'
  · funext i; exact getD_map_finRange g.initialBoard i '.'
  · funext i; exact notesFromSnapshot_saveGame g i
  · dsimp only
    rw [if_pos (List.elem_iff.mpr hd)]
  · rfl
  · rfl

/-- C1 witness: the round trip at the sample fresh game. -/
theorem saveGame_loadGame_roundtrip_w :
    loadGame (some (saveGame gStart)) = some gStart :=
  saveGame_loadGame_roundtrip gStart gStart_reachable

/-- C10: loadGame yields invalid on a missing or unparseable snapshot and
on a snapshot lacking any of the three grid fields; on a successful load
an out-of-enum or missing difficulty normalizes to medium, a legacy
single-character note entry normalizes to a one-element candidate set,
and presence of the three grid fields with a non-empty initial board is
enough for the load to succeed rather than fail. -/
theorem loadGame_spec :
    (loadGame none = none)
    ∧ (∀ s : Snapshot,
        s.board = none ∨ s.solution = none ∨ s.initialBoard = none →
        loadGame (some s) = none)
    ∧ (∀ s : Snapshot, ∀ g : GameState, loadGame (some s) = some g →
        ((∀ d, s.difficulty = some d → d ∉ validDifficulties →
            g.difficulty = "medium")
          ∧ (s.difficulty = none → g.difficulty = "medium")
          ∧ (∀ k c (hk : k < 81), s.notes = some [(k, NoteVal.str c)] →
              g.notes ⟨k, hk⟩ = some {c})))
    ∧ (∀ s : Snapshot, ∀ b sol ib, s.board = some b → s.solution = some sol →
        s.initialBoard = some ib → ib ≠ [] →
        (loadGame (some s)).isSome = true) := by
  refine ⟨rfl, ?_, ?_, ?_⟩
  · intro s h
    unfold loadGame
    dsimp only
    rcases h with h | h | h <;> rw [h] <;>
      cases s.board <;> cases s.solution <;> cases s.initialBoard <;> rfl
  · intro s g hg
    unfold loadGame at hg
    dsimp only at hg
    cases hb : s.board with
    | none => rw [hb] at hg; exact absurd hg (by simp)
    | some b =>
      cases hsol : s.solution with
      | none => rw [hb, hsol] at hg; exact absurd hg (by simp)
      | some sol =>
        cases hib : s.initialBoard with
        | none => rw [hb, hsol, hib] at hg; exact absurd hg (by simp)
        | some ib =>
          rw [hb, hsol, hib] at hg
          dsimp only at hg
          by_cases hemp : ib.isEmpty
          · rw [if_pos hemp] at hg; exact absurd hg (by simp)
          · rw [if_neg hemp] at hg
            have hg' := Option.some.inj hg
            refine ⟨fun d hd hnd => ?_, fun hd => ?_, fun k c hk hns => ?_⟩
            · rw [← hg']
              dsimp only
              rw [hd]
              dsimp only
              rw [if_neg fun hc => hnd (List.elem_iff.mp hc)]
            · rw [← hg']
              dsimp only
              rw [hd]
            · rw [← hg']
              dsimp only
              rw [hns]
              show notesFromSnapshot [(k, NoteVal.str c)] ⟨k, hk⟩ = some {c}
              unfold notesFromSnapshot
              rw [List.foldl_cons, List.foldl_nil]
              unfold assignNote
              rw [if_pos rfl]
              rfl
  · intro s b sol ib hb hsol hib hne
    unfold loadGame
    dsimp only
    rw [hb, hsol, hib]
    dsimp only
    rw [if_neg (by simpa using hne)]
    rfl

/-- A snapshot missing the board field. -/
def snapMissing : Snapshot :=
  { board := none
    solution := some solution0.toList
    initialBoard := some puzzle0.toList
    notes := none
    difficulty := some "medium"
    selectedCell := none
    noteMode := some false }

/-- A legacy snapshot: a single-character string note entry at cell four
and an out-of-enum difficulty value. -/
def snapLegacy : Snapshot :=
  { board := some puzzle0.toList
    solution := some solution0.toList
    initialBoard := some puzzle0.toList
    notes := some [(4, NoteVal.str '7')]
    difficulty := some "impossible"
    selectedCell := none
    noteMode := none }

/-- The state produced by loading the legacy snapshot. -/
def gLegacy : GameState :=
  (loadGame (some snapLegacy)).getD initialGameState

/-- C10 witness: the missing-field snapshot is rejected, and the legacy
snapshot loads with difficulty normalized to medium and the legacy note
normalized to a one-element set. -/
theorem loadGame_spec_w :
    loadGame none = none ∧
      loadGame (some snapMissing) = none ∧
      gLegacy.difficulty = "medium" ∧
      gLegacy.notes ⟨4, by decide⟩ = some {'7'} ∧
      (loadGame (some snapLegacy)).isSome = true :=
  ⟨loadGame_spec.1,
    loadGame_spec.2.1 snapMissing (Or.inl rfl),
    (loadGame_spec.2.2.1 snapLegacy gLegacy rfl).1 "impossible" rfl (by decide),
    (loadGame_spec.2.2.1 snapLegacy gLegacy rfl).2.2 4 '7' (by decide) rfl,
    loadGame_spec.2.2.2 snapLegacy puzzle0.toList solution0.toList
      puzzle0.toList rfl rfl rfl (by decide)⟩

end Sudoku
